import Mathlib

/-!
Verification of the argmin test-function core: the Rosenbrock family
(value, gradient, Hessian in dynamic and const-generic form), the
Himmelblau function, and the `ArgminMinMax` ordering primitive.

Scalars are modelled by `ℚ` (exact arithmetic standing in for the generic
`Float` element type `T`); dynamically sized slices `&[T]` and arrays
`[T; N]` are modelled by `List ℚ`, and `Vec<Vec<T>>` / `[[T; N]; N]` by
`List (List ℚ)`.  The gradient and Hessian loops of the source run over
`0..(n - 1)` where `n` is the unsigned slice length; for `n = 0` the bound
`n - 1` underflows and the call panics, which the embedding models by an
`Option` result that is `none` exactly in that case.
-/

namespace Argmin

/-- Embedding of `rosenbrock` (rosenbrock.rs): zips the parameter slice with
itself shifted by one, maps `(a - xi)^2 + b * (xi1 - xi^2)^2` over the pairs
and sums. -/
def rosenbrock (param : List ℚ) (a b : ℚ) : ℚ :=
  ((param.zip param.tail).map
    (fun p => (a - p.1) ^ 2 + b * (p.2 - p.1 ^ 2) ^ 2)).sum

/-- One iteration of the loop body of `rosenbrock_derivative`
(rosenbrock.rs lines 58-67): reads `xi = param[i]`, `xi1 = param[i+1]`,
adds `t1 + 2 * (xi - a)` to `result[i]` and `t2` to `result[i + 1]`. -/
def drvStep (a b : ℚ) (param : List ℚ) (result : List ℚ) (i : ℕ) : List ℚ :=
  let xi := param.getD i 0
  let xi1 := param.getD (i + 1) 0
  let t1 := -4 * b * xi * (xi1 - xi ^ 2)
  let t2 := 2 * b * (xi1 - xi ^ 2)
  let r1 := result.set i (result.getD i 0 + (t1 + 2 * (xi - a)))
  r1.set (i + 1) (r1.getD (i + 1) 0 + t2)

/-- Embedding of `rosenbrock_derivative` (rosenbrock.rs): a zero vector of
length `n` mutated by the loop `for i in 0..(n - 1)`.  For `n = 0` the Rust
loop bound `n - 1` underflows on `usize` and the call panics: `none`. -/
def rosenbrock_derivative (param : List ℚ) (a b : ℚ) : Option (List ℚ) :=
  let n := param.length
  if n = 0 then none
  else some ((List.range (n - 1)).foldl (drvStep a b param) (List.replicate n 0))

/-- `hessian[i][j]`: two-level `getD` read. -/
def get2 (H : List (List ℚ)) (i j : ℕ) : ℚ :=
  (H.getD i []).getD j 0

/-- `hessian[i][j] = v`: two-level `set` write. -/
def set2 (H : List (List ℚ)) (i j : ℕ) (v : ℚ) : List (List ℚ) :=
  H.set i ((H.getD i []).set j v)

/-- One iteration of the loop body of `rosenbrock_hessian`
(rosenbrock.rs lines 84-92): accumulates into `hessian[i][i]` and
overwrites `hessian[i+1][i+1]`, `hessian[i][i+1]`, `hessian[i+1][i]`. -/
def hesStep (a b : ℚ) (param : List ℚ) (H : List (List ℚ)) (i : ℕ) :
    List (List ℚ) :=
  let xi := param.getD i 0
  let xi1 := param.getD (i + 1) 0
  let h1 := set2 H i i (get2 H i i + (12 * b * xi ^ 2 - 4 * b * xi1 + 2 * a))
  let h2 := set2 h1 (i + 1) (i + 1) (2 * b)
  let h3 := set2 h2 i (i + 1) (-4 * b * xi)
  set2 h3 (i + 1) i (-4 * b * xi)

/-- Embedding of `rosenbrock_hessian` (rosenbrock.rs): an `n × n` zero matrix
mutated by the loop `for i in 0..n - 1`; `none` models the panic at `n = 0`. -/
def rosenbrock_hessian (param : List ℚ) (a b : ℚ) : Option (List (List ℚ)) :=
  let n := param.length
  if n = 0 then none
  else some ((List.range (n - 1)).foldl (hesStep a b param)
    (List.replicate n (List.replicate n 0)))

/-- Loop body of `rosenbrock_derivative_const` (rosenbrock.rs lines 110-119),
textually identical to the dynamic one. -/
def drvStepC (a b : ℚ) (param : List ℚ) (result : List ℚ) (i : ℕ) : List ℚ :=
  let xi := param.getD i 0
  let xi1 := param.getD (i + 1) 0
  let t1 := -4 * b * xi * (xi1 - xi ^ 2)
  let t2 := 2 * b * (xi1 - xi ^ 2)
  let r1 := result.set i (result.getD i 0 + (t1 + 2 * (xi - a)))
  r1.set (i + 1) (r1.getD (i + 1) 0 + t2)

/-- Embedding of `rosenbrock_derivative_const` (rosenbrock.rs): the array
`[T; N]` is a list of length `N`; the loop runs over `0..(N - 1)`, whose
bound underflows (panic, `none`) for `N = 0`. -/
def rosenbrock_derivative_const (N : ℕ) (param : List ℚ) (a b : ℚ) :
    Option (List ℚ) :=
  if N = 0 then none
  else some ((List.range (N - 1)).foldl (drvStepC a b param) (List.replicate N 0))

/-- Loop body of `rosenbrock_hessian_const` (rosenbrock.rs lines 135-143),
textually identical to the dynamic one. -/
def hesStepC (a b : ℚ) (x : List ℚ) (H : List (List ℚ)) (i : ℕ) :
    List (List ℚ) :=
  let xi := x.getD i 0
  let xi1 := x.getD (i + 1) 0
  let h1 := set2 H i i (get2 H i i + (12 * b * xi ^ 2 - 4 * b * xi1 + 2 * a))
  let h2 := set2 h1 (i + 1) (i + 1) (2 * b)
  let h3 := set2 h2 i (i + 1) (-4 * b * xi)
  set2 h3 (i + 1) i (-4 * b * xi)

/-- Embedding of `rosenbrock_hessian_const` (rosenbrock.rs). -/
def rosenbrock_hessian_const (N : ℕ) (x : List ℚ) (a b : ℚ) :
    Option (List (List ℚ)) :=
  if N = 0 then none
  else some ((List.range (N - 1)).foldl (hesStepC a b x)
    (List.replicate N (List.replicate N 0)))

/-- Embedding of `himmelblau` (himmelblau.rs): the `[T; 2]` parameter is a
pair; constants 7 and 11 are exact in `ℚ`. -/
def himmelblau (param : ℚ × ℚ) : ℚ :=
  let x1 := param.1
  let x2 := param.2
  (x1 ^ 2 + x2 - 11) ^ 2 + (x1 + x2 ^ 2 - 7) ^ 2

/-- Embedding of `std::cmp::min`: the minimum in the element type's total
order, returning the first argument on a tie. -/
def cmpMin {α : Type} [LinearOrder α] (x y : α) : α :=
  if x ≤ y then x else y

/-- Embedding of `std::cmp::max`: the maximum in the element type's total
order, returning the second argument on a tie. -/
def cmpMax {α : Type} [LinearOrder α] (x y : α) : α :=
  if x ≤ y then y else x

namespace ArgminMinMax

/-- `ArgminMinMax::min` as generated by `make_minmax!` (minmax.rs):
delegates to `std::cmp::min`. -/
def min {α : Type} [LinearOrder α] (x y : α) : α := cmpMin x y

/-- `ArgminMinMax::max` as generated by `make_minmax!` (minmax.rs):
delegates to `std::cmp::max`. -/
def max {α : Type} [LinearOrder α] (x y : α) : α := cmpMax x y

end ArgminMinMax

end Argmin

namespace Argmin

/-- Auxiliary: the pairwise zip-map-sum of `rosenbrock` equals the indexed
sum over the `length - 1` adjacent windows. -/
theorem zip_tail_map_sum (g : ℚ × ℚ → ℚ) :
    ∀ l : List ℚ,
      ((l.zip l.tail).map g).sum =
        ∑ i ∈ Finset.range (l.length - 1), g (l.getD i 0, l.getD (i + 1) 0)
  | [] => by simp
  | [x] => by simp
  | x :: y :: t => by
    have ih := zip_tail_map_sum g (y :: t)
    simp only [List.tail_cons, List.zip_cons_cons, List.map_cons, List.sum_cons,
      List.length_cons] at ih ⊢
    rw [ih]
    have hn : t.length + 1 + 1 - 1 = (t.length + 1 - 1) + 1 := rfl
    rw [hn, Finset.sum_range_succ']
    simp only [List.getD_cons_succ, List.getD_cons_zero]
    ring

end Argmin

namespace Argmin

/-- C1: on the input `(0, 0.1, 0.2, 0.3)` with `a = 1`, `b = 100`, both
`rosenbrock_hessian` and `rosenbrock_hessian_const` (with `N = 4`) return
exactly the reference matrix
`[[-38,0,0,0],[0,134,-40,0],[0,-40,130,-80],[0,0,-80,200]]`. -/
theorem rosenbrock_hessian_reference_case :
    rosenbrock_hessian [0, 1/10, 1/5, 3/10] 1 100 =
      some [[-38, 0, 0, 0], [0, 134, -40, 0], [0, -40, 130, -80],
        [0, 0, -80, 200]] ∧
    rosenbrock_hessian_const 4 [0, 1/10, 1/5, 3/10] 1 100 =
      some [[-38, 0, 0, 0], [0, 134, -40, 0], [0, -40, 130, -80],
        [0, 0, -80, 200]] := by
  constructor <;>
    norm_num [rosenbrock_hessian, rosenbrock_hessian_const, hesStep, hesStepC,
      set2, get2, List.range_succ, List.replicate, List.set_cons_zero,
      List.set_cons_succ]

/-- C4: for every parameter vector of length `n ≥ 1`, `rosenbrock` returns
the sum over the adjacent-pair windows of `(a - xi)^2 + b*(xi1 - xi^2)^2`;
for `n = 1` the sum is empty and the result is `0`. -/
theorem rosenbrock_value_sum (param : List ℚ) (a b : ℚ)
    (_h : 1 ≤ param.length) :
    rosenbrock param a b =
      (∑ i ∈ Finset.range (param.length - 1),
        ((a - param.getD i 0) ^ 2 +
          b * (param.getD (i + 1) 0 - param.getD i 0 ^ 2) ^ 2)) ∧
    (param.length = 1 → rosenbrock param a b = 0) := by
  refine ⟨zip_tail_map_sum _ param, fun h1 => ?_⟩
  rw [rosenbrock, zip_tail_map_sum _ param, h1]
  simp

/-- C4 witness: the sum form evaluated at the concrete vector `[1, 2]`. -/
theorem rosenbrock_value_sum_witness :
    1 ≤ ([1, 2] : List ℚ).length ∧
      (rosenbrock [1, 2] 1 100 =
        (∑ i ∈ Finset.range (([1, 2] : List ℚ).length - 1),
          ((1 - ([1, 2] : List ℚ).getD i 0) ^ 2 +
            100 * (([1, 2] : List ℚ).getD (i + 1) 0 -
              ([1, 2] : List ℚ).getD i 0 ^ 2) ^ 2)) ∧
        (([1, 2] : List ℚ).length = 1 → rosenbrock [1, 2] 1 100 = 0)) :=
  ⟨by decide, rosenbrock_value_sum [1, 2] 1 100 (by decide)⟩

/-- C9: `himmelblau` computes `(x1^2 + x2 - 11)^2 + (x1 + x2^2 - 7)^2` and
in exact arithmetic vanishes at the global minimum `(3, 2)`. -/
theorem himmelblau_formula_and_minimum :
    (∀ x1 x2 : ℚ,
      himmelblau (x1, x2) = (x1 ^ 2 + x2 - 11) ^ 2 + (x1 + x2 ^ 2 - 7) ^ 2) ∧
    himmelblau (3, 2) = 0 := by
  exact ⟨fun x1 x2 => rfl, by norm_num [himmelblau]⟩

/-- C10: at the empty parameter vector the family is asymmetric: the value
function returns `0` (its zip over adjacent pairs is empty), while the
derivative and the Hessian hit the underflowing loop bound `n - 1` and do
not return a value (modelled by `none`). -/
theorem rosenbrock_empty_input (a b : ℚ) :
    rosenbrock [] a b = 0 ∧
    rosenbrock_derivative [] a b = none ∧
    rosenbrock_hessian [] a b = none :=
  ⟨rfl, rfl, rfl⟩

/-- C3: on equal inputs of matching length, the dynamic-size and the
const-generic implementations return equal results, entry for entry: the
gradient lists and the Hessian matrices coincide. -/
theorem rosenbrock_dynamic_eq_const (N : ℕ) (param : List ℚ) (a b : ℚ)
    (h : param.length = N) :
    rosenbrock_derivative param a b = rosenbrock_derivative_const N param a b ∧
    rosenbrock_hessian param a b = rosenbrock_hessian_const N param a b := by
  subst h
  exact ⟨rfl, rfl⟩

/-- C3 witness: dynamic and const-generic agreement at `(0, 0.1, 0.2, 0.3)`
with `a = 1`, `b = 100`. -/
theorem rosenbrock_dynamic_eq_const_witness :
    ([0, 1/10, 1/5, 3/10] : List ℚ).length = 4 ∧
      (rosenbrock_derivative [0, 1/10, 1/5, 3/10] 1 100 =
        rosenbrock_derivative_const 4 [0, 1/10, 1/5, 3/10] 1 100 ∧
      rosenbrock_hessian [0, 1/10, 1/5, 3/10] 1 100 =
        rosenbrock_hessian_const 4 [0, 1/10, 1/5, 3/10] 1 100) :=
  ⟨by decide, rosenbrock_dynamic_eq_const 4 [0, 1/10, 1/5, 3/10] 1 100 (by decide)⟩

/-- C7: for every element type carrying the total order that
`std::cmp::min` and `std::cmp::max` compare by, and all `x < y`, the
`ArgminMinMax` operations satisfy `min x y = x`, `max x y = y`,
`min y x = x` and `max y x = y`. -/
theorem argminMinMax_ordered {α : Type} [LinearOrder α] (x y : α)
    (h : x < y) :
    ArgminMinMax.min x y = x ∧ ArgminMinMax.max x y = y ∧
    ArgminMinMax.min y x = x ∧ ArgminMinMax.max y x = y := by
  refine ⟨?_, ?_, ?_, ?_⟩ <;>
    simp [ArgminMinMax.min, ArgminMinMax.max, cmpMin, cmpMax,
      le_of_lt h, not_le.mpr h]

/-- C7 witness: the ordering property at `5 < 10` over `ℤ` (the model of
the 64-bit signed member of the catalog), mirroring the source's tests. -/
theorem argminMinMax_ordered_witness :
    (5 : ℤ) < 10 ∧
      (ArgminMinMax.min (5 : ℤ) 10 = 5 ∧ ArgminMinMax.max (5 : ℤ) 10 = 10 ∧
       ArgminMinMax.min (10 : ℤ) 5 = 5 ∧ ArgminMinMax.max (10 : ℤ) 5 = 10) :=
  ⟨by decide, argminMinMax_ordered (5 : ℤ) 10 (by decide)⟩

end Argmin

namespace Argmin

/-- Auxiliary: `getD` after `set` reads the written value exactly at the
written in-bounds index. -/
theorem getD_set {α : Type} (l : List α) (i j : ℕ) (v d : α) :
    (l.set i v).getD j d = if i = j ∧ j < l.length then v else l.getD j d := by
  induction l generalizing i j with
  | nil => simp
  | cons x xs ih =>
    cases i with
    | zero =>
      cases j with
      | zero => simp
      | succ j => simp
    | succ i =>
      cases j with
      | zero => simp
      | succ j =>
        rw [List.set_cons_succ, List.getD_cons_succ, ih, List.getD_cons_succ]
        simp [Nat.succ_lt_succ_iff]

/-- Auxiliary: `getD` on `replicate`. -/
theorem getD_replicate {α : Type} (n j : ℕ) (x d : α) :
    (List.replicate n x).getD j d = if j < n then x else d := by
  induction n generalizing j with
  | zero => simp
  | succ n ih =>
    cases j with
    | zero => simp [List.replicate_succ]
    | succ j =>
      rw [List.replicate_succ, List.getD_cons_succ, ih]
      simp [Nat.succ_lt_succ_iff]

/-- Auxiliary: a fold over `range (k + 1)` is the fold over `range k`
followed by the step at `k`. -/
theorem foldl_range_succ {β : Type} (f : β → ℕ → β) (init : β) (k : ℕ) :
    (List.range (k + 1)).foldl f init = f ((List.range k).foldl f init) k := by
  rw [List.range_succ, List.foldl_append]
  rfl

end Argmin

namespace Argmin

theorem drvStep_length (a b : ℚ) (param R : List ℚ) (i : ℕ) :
    (drvStep a b param R i).length = R.length := by
  simp [drvStep]

theorem drvStep_getD (a b : ℚ) (param R : List ℚ) (i j : ℕ)
    (hi1 : i + 1 < R.length) :
    (drvStep a b param R i).getD j 0 =
      if j = i then
        R.getD i 0 +
          (-4 * b * param.getD i 0 *
              (param.getD (i + 1) 0 - param.getD i 0 ^ 2) +
            2 * (param.getD i 0 - a))
      else if j = i + 1 then
        R.getD (i + 1) 0 +
          2 * b * (param.getD (i + 1) 0 - param.getD i 0 ^ 2)
      else R.getD j 0 := by
  simp only [drvStep, getD_set, List.length_set]
  split_ifs <;> first | rfl | omega

theorem drv_foldl_length (a b : ℚ) (param init : List ℚ) (k : ℕ) :
    ((List.range k).foldl (drvStep a b param) init).length = init.length := by
  induction k with
  | zero => rfl
  | succ k ih => rw [foldl_range_succ, drvStep_length, ih]

theorem drv_foldl_getD (a b : ℚ) (param : List ℚ) (k : ℕ)
    (hk : k ≤ param.length - 1) :
    ∀ j, j < param.length →
      ((List.range k).foldl (drvStep a b param)
          (List.replicate param.length 0)).getD j 0 =
        (if j < k then
          -4 * b * param.getD j 0 *
              (param.getD (j + 1) 0 - param.getD j 0 ^ 2) +
            2 * (param.getD j 0 - a)
        else 0) +
        (if 1 ≤ j ∧ j ≤ k then
          2 * b * (param.getD j 0 - param.getD (j - 1) 0 ^ 2)
        else 0) := by
  induction k with
  | zero =>
    intro j hj
    rw [List.range_zero, List.foldl_nil, getD_replicate, if_pos hj]
    rw [if_neg (by omega), if_neg (by omega)]
    norm_num
  | succ k ih =>
    intro j hj
    have hk' : k ≤ param.length - 1 := by omega
    have hlen : ((List.range k).foldl (drvStep a b param)
        (List.replicate param.length 0)).length = param.length := by
      rw [drv_foldl_length, List.length_replicate]
    rw [foldl_range_succ, drvStep_getD a b param _ k j (by omega)]
    by_cases hjk : j = k
    · subst hjk
      rw [ih hk' j hj, ih hk' (j + 1) (by omega)]
      try simp only [Nat.add_sub_cancel]
      split_ifs <;> (first | ring1 | (exfalso; omega))
    · by_cases hjk1 : j = k + 1
      · subst hjk1
        rw [if_neg (by omega), if_pos rfl, ih hk' (k + 1) hj]
        try simp only [Nat.add_sub_cancel]
        split_ifs <;> (first | ring1 | (exfalso; omega))
      · rw [if_neg hjk, if_neg hjk1, ih hk' j hj]
        try simp only [Nat.add_sub_cancel]
        split_ifs <;> (first | ring1 | (exfalso; omega))

end Argmin

namespace Argmin

theorem length_set2 (H : List (List ℚ)) (i j : ℕ) (v : ℚ) :
    (set2 H i j v).length = H.length := by
  simp [set2]

theorem set2_row_length (H : List (List ℚ)) (i j : ℕ) (v : ℚ) (r : ℕ) :
    ((set2 H i j v).getD r []).length = (H.getD r []).length := by
  unfold set2
  rw [getD_set]
  split_ifs with h
  · obtain ⟨rfl, -⟩ := h
    simp
  · rfl

theorem get2_set2 (H : List (List ℚ)) (i j r s : ℕ) (v : ℚ) :
    get2 (set2 H i j v) r s =
      if i = r ∧ j = s ∧ i < H.length ∧ j < (H.getD i []).length then v
      else get2 H r s := by
  unfold get2 set2
  rw [getD_set]
  by_cases hii : i = r
  · subst hii
    by_cases hlen : i < H.length
    · rw [if_pos ⟨rfl, hlen⟩, getD_set]
      by_cases hjj : j = s
      · subst hjj
        by_cases hrow : j < (H.getD i []).length
        · rw [if_pos ⟨rfl, hrow⟩, if_pos ⟨rfl, rfl, hlen, hrow⟩]
        · rw [if_neg (fun hc => hrow hc.2), if_neg (fun hc => hrow hc.2.2.2)]
      · rw [if_neg (fun hc => hjj hc.1), if_neg (fun hc => hjj hc.2.1)]
    · rw [if_neg (fun hc => hlen hc.2), if_neg (fun hc => hlen hc.2.2.1)]
  · rw [if_neg (fun hc => hii hc.1), if_neg (fun hc => hii hc.1)]

theorem hesStep_length (a b : ℚ) (param : List ℚ) (H : List (List ℚ)) (i : ℕ) :
    (hesStep a b param H i).length = H.length := by
  simp only [hesStep, length_set2]

theorem hesStep_row_length (a b : ℚ) (param : List ℚ) (H : List (List ℚ))
    (i r : ℕ) :
    ((hesStep a b param H i).getD r []).length = (H.getD r []).length := by
  simp only [hesStep, set2_row_length]

theorem hesStep_get2 (a b : ℚ) (param : List ℚ) (H : List (List ℚ))
    (i r s : ℕ) (hi1 : i + 1 < H.length)
    (hri : i + 1 < (H.getD i []).length)
    (hri1 : i + 1 < (H.getD (i + 1) []).length) :
    get2 (hesStep a b param H i) r s =
      if i + 1 = r ∧ i = s then -4 * b * param.getD i 0
      else if i = r ∧ i + 1 = s then -4 * b * param.getD i 0
      else if i + 1 = r ∧ i + 1 = s then 2 * b
      else if i = r ∧ i = s then
        get2 H i i +
          (12 * b * param.getD i 0 ^ 2 - 4 * b * param.getD (i + 1) 0 + 2 * a)
      else get2 H r s := by
  simp only [hesStep, get2_set2, length_set2, set2_row_length]
  split_ifs <;> (first | rfl | (exfalso; omega))

end Argmin

namespace Argmin

theorem hes_foldl_length (a b : ℚ) (param : List ℚ) (init : List (List ℚ))
    (k : ℕ) :
    ((List.range k).foldl (hesStep a b param) init).length = init.length := by
  induction k with
  | zero => rfl
  | succ k ih => rw [foldl_range_succ, hesStep_length, ih]

theorem hes_foldl_row_length (a b : ℚ) (param : List ℚ)
    (init : List (List ℚ)) (k r : ℕ) :
    (((List.range k).foldl (hesStep a b param) init).getD r []).length =
      (init.getD r []).length := by
  induction k with
  | zero => rfl
  | succ k ih => rw [foldl_range_succ, hesStep_row_length, ih]

theorem hes_foldl_symm (a b : ℚ) (param : List ℚ) (k : ℕ)
    (hk : k ≤ param.length - 1) :
    ∀ r s, r < param.length → s < param.length →
      get2 ((List.range k).foldl (hesStep a b param)
        (List.replicate param.length (List.replicate param.length 0))) r s =
      get2 ((List.range k).foldl (hesStep a b param)
        (List.replicate param.length (List.replicate param.length 0))) s r := by
  induction k with
  | zero =>
    intro r s hr hs
    unfold get2
    rw [List.range_zero, List.foldl_nil, getD_replicate, getD_replicate,
      if_pos hr, if_pos hs, getD_replicate, getD_replicate, if_pos hr, if_pos hs]
  | succ k ih =>
    intro r s hr hs
    have hk' : k ≤ param.length - 1 := by omega
    have hRlen : ((List.range k).foldl (hesStep a b param)
        (List.replicate param.length (List.replicate param.length 0))).length =
        param.length := by
      rw [hes_foldl_length, List.length_replicate]
    have hRrow : ∀ r, r < param.length →
        (((List.range k).foldl (hesStep a b param)
          (List.replicate param.length
            (List.replicate param.length 0))).getD r []).length =
        param.length := by
      intro r hr
      rw [hes_foldl_row_length, getD_replicate, if_pos hr, List.length_replicate]
    rw [foldl_range_succ,
      hesStep_get2 a b param _ k r s (by rw [hRlen]; omega)
        (by rw [hRrow k (by omega)]; omega)
        (by rw [hRrow (k + 1) (by omega)]; omega),
      hesStep_get2 a b param _ k s r (by rw [hRlen]; omega)
        (by rw [hRrow k (by omega)]; omega)
        (by rw [hRrow (k + 1) (by omega)]; omega)]
    split_ifs <;> (first | rfl | (exfalso; omega) | exact ih hk' r s hr hs)

end Argmin

namespace Argmin

/-- C2: for every parameter vector of length at least 2, the gradient is the
additive accumulation over adjacent-pair windows: entry `j` receives
`-4*b*x_j*(x_{j+1} - x_j^2) + 2*(x_j - a)` from window `(j, j+1)` when
`j < n - 1`, and `2*b*(x_j - x_{j-1}^2)` from window `(j-1, j)` when
`1 ≤ j`; interior entries get both, entry `0` only the first kind, the last
entry only the second kind. -/
theorem rosenbrock_derivative_window_form (param : List ℚ) (a b : ℚ)
    (h : 2 ≤ param.length) :
    ∃ d, rosenbrock_derivative param a b = some d ∧
      d.length = param.length ∧
      ∀ j, j < param.length →
        d.getD j 0 =
          (if j < param.length - 1 then
            -4 * b * param.getD j 0 *
                (param.getD (j + 1) 0 - param.getD j 0 ^ 2) +
              2 * (param.getD j 0 - a)
          else 0) +
          (if 1 ≤ j then
            2 * b * (param.getD j 0 - param.getD (j - 1) 0 ^ 2)
          else 0) := by
  refine ⟨(List.range (param.length - 1)).foldl (drvStep a b param)
      (List.replicate param.length 0), ?_, ?_, ?_⟩
  · unfold rosenbrock_derivative
    rw [if_neg (by omega)]
  · rw [drv_foldl_length, List.length_replicate]
  · intro j hj
    rw [drv_foldl_getD a b param (param.length - 1) (le_refl _) j hj]
    have hiff : (1 ≤ j ∧ j ≤ param.length - 1) ↔ 1 ≤ j := by omega
    simp only [hiff]

/-- C2 witness: the window form at the concrete vector `(0, 0.1, 0.2, 0.3)`
with `a = 1`, `b = 100`. -/
theorem rosenbrock_derivative_window_form_witness :
    2 ≤ ([0, 1/10, 1/5, 3/10] : List ℚ).length ∧
      (∃ d, rosenbrock_derivative [0, 1/10, 1/5, 3/10] 1 100 = some d ∧
        d.length = ([0, 1/10, 1/5, 3/10] : List ℚ).length ∧
        ∀ j, j < ([0, 1/10, 1/5, 3/10] : List ℚ).length →
          d.getD j 0 =
            (if j < ([0, 1/10, 1/5, 3/10] : List ℚ).length - 1 then
              -4 * 100 * ([0, 1/10, 1/5, 3/10] : List ℚ).getD j 0 *
                  (([0, 1/10, 1/5, 3/10] : List ℚ).getD (j + 1) 0 -
                    ([0, 1/10, 1/5, 3/10] : List ℚ).getD j 0 ^ 2) +
                2 * (([0, 1/10, 1/5, 3/10] : List ℚ).getD j 0 - 1)
            else 0) +
            (if 1 ≤ j then
              2 * 100 * (([0, 1/10, 1/5, 3/10] : List ℚ).getD j 0 -
                ([0, 1/10, 1/5, 3/10] : List ℚ).getD (j - 1) 0 ^ 2)
            else 0)) :=
  ⟨by decide, rosenbrock_derivative_window_form [0, 1/10, 1/5, 3/10] 1 100 (by decide)⟩

/-- C5: for every parameter vector of length `n ≥ 1`, the derivative and
the Hessian return a value (no panic: the loop bound does not underflow
and all accesses are in bounds), of the documented shape: a gradient of
length `n` and an `n × n` Hessian. -/
theorem rosenbrock_derivative_hessian_shape (param : List ℚ) (a b : ℚ)
    (h : 1 ≤ param.length) :
    ∃ d H, rosenbrock_derivative param a b = some d ∧
      d.length = param.length ∧
      rosenbrock_hessian param a b = some H ∧
      H.length = param.length ∧
      ∀ i, i < param.length → (H.getD i []).length = param.length := by
  refine ⟨(List.range (param.length - 1)).foldl (drvStep a b param)
      (List.replicate param.length 0),
    (List.range (param.length - 1)).foldl (hesStep a b param)
      (List.replicate param.length (List.replicate param.length 0)),
    ?_, ?_, ?_, ?_, ?_⟩
  · unfold rosenbrock_derivative
    rw [if_neg (by omega)]
  · rw [drv_foldl_length, List.length_replicate]
  · unfold rosenbrock_hessian
    rw [if_neg (by omega)]
  · rw [hes_foldl_length, List.length_replicate]
  · intro i hi
    rw [hes_foldl_row_length, getD_replicate, if_pos hi, List.length_replicate]

/-- C5 witness: shape of gradient and Hessian at the concrete vector
`[1, 2]`. -/
theorem rosenbrock_derivative_hessian_shape_witness :
    1 ≤ ([1, 2] : List ℚ).length ∧
      (∃ d H, rosenbrock_derivative [1, 2] 1 100 = some d ∧
        d.length = ([1, 2] : List ℚ).length ∧
        rosenbrock_hessian [1, 2] 1 100 = some H ∧
        H.length = ([1, 2] : List ℚ).length ∧
        ∀ i, i < ([1, 2] : List ℚ).length →
          (H.getD i []).length = ([1, 2] : List ℚ).length) :=
  ⟨by decide, rosenbrock_derivative_hessian_shape [1, 2] 1 100 (by decide)⟩

/-- C6: for every parameter vector of length `n ≥ 1`, the Hessian is a
square `n × n` matrix and symmetric: entry `(i, j)` equals entry
`(j, i)` for all `i, j < n`. -/
theorem rosenbrock_hessian_symmetric (param : List ℚ) (a b : ℚ)
    (h : 1 ≤ param.length) :
    ∃ H, rosenbrock_hessian param a b = some H ∧
      H.length = param.length ∧
      (∀ i, i < param.length → (H.getD i []).length = param.length) ∧
      ∀ i j, i < param.length → j < param.length →
        get2 H i j = get2 H j i := by
  refine ⟨(List.range (param.length - 1)).foldl (hesStep a b param)
      (List.replicate param.length (List.replicate param.length 0)),
    ?_, ?_, ?_, ?_⟩
  · unfold rosenbrock_hessian
    rw [if_neg (by omega)]
  · rw [hes_foldl_length, List.length_replicate]
  · intro i hi
    rw [hes_foldl_row_length, getD_replicate, if_pos hi, List.length_replicate]
  · exact hes_foldl_symm a b param (param.length - 1) (le_refl _)

/-- C6 witness: symmetry of the Hessian at the concrete vector
`(0, 0.1, 0.2, 0.3)` with `a = 1`, `b = 100`. -/
theorem rosenbrock_hessian_symmetric_witness :
    1 ≤ ([0, 1/10, 1/5, 3/10] : List ℚ).length ∧
      (∃ H, rosenbrock_hessian [0, 1/10, 1/5, 3/10] 1 100 = some H ∧
        H.length = ([0, 1/10, 1/5, 3/10] : List ℚ).length ∧
        (∀ i, i < ([0, 1/10, 1/5, 3/10] : List ℚ).length →
          (H.getD i []).length = ([0, 1/10, 1/5, 3/10] : List ℚ).length) ∧
        ∀ i j, i < ([0, 1/10, 1/5, 3/10] : List ℚ).length →
          j < ([0, 1/10, 1/5, 3/10] : List ℚ).length →
          get2 H i j = get2 H j i) :=
  ⟨by decide, rosenbrock_hessian_symmetric [0, 1/10, 1/5, 3/10] 1 100 (by decide)⟩

end Argmin
